import Mathlib

/-!
Shallow embedding of `orders.py` (repository `juleek/ordres`).

Modelling conventions:
* Python `float` values and float arithmetic are modelled as exact rationals
  (`ℚ`); Python `int` as `ℤ`.
* `int(x)` (truncation toward zero) is `ratTrunc`.
* `round(x, n)` (banker's rounding to `n` decimal places) is `pyRound`.
* `int(-math.log10 s)` is `pyIntNegLog10 s`, the exact-real value of the
  Python expression for a positive rational `s`.
* `random.randint(lo, hi)` draws are modelled by an ambient stream of integer
  draws, clamped into `[lo, hi]`: for `lo ≤ hi` the clamp is a surjection from
  streams onto `[lo, hi]`, so quantifying over all streams quantifies over all
  possible randint outcomes.  `uuid.uuid4()` is modelled by a stream of ids.
* Exceptions are modelled with `Except PyErr` where control flow depends on
  them; code paths whose preconditions rule out exceptions are embedded as
  total functions.
-/

namespace Ordres

/-- Python `int(x)` on a rational: truncation toward zero. -/
def ratTrunc (q : ℚ) : ℤ := if 0 ≤ q then ⌊q⌋ else ⌈q⌉

/-- Python `round` to the nearest integer: round half to even. -/
def roundHalfEven (q : ℚ) : ℤ :=
  if q - ⌊q⌋ < 1/2 then ⌊q⌋
  else if 1/2 < q - ⌊q⌋ then ⌊q⌋ + 1
  else if ⌊q⌋ % 2 = 0 then ⌊q⌋ else ⌊q⌋ + 1

/-- Python `round(x, n)`: round half to even at `n` decimal places. -/
def pyRound (x : ℚ) (n : ℤ) : ℚ := (roundHalfEven (x * 10 ^ n) : ℚ) / 10 ^ n

/-- Python `int(-math.log10 q)` for a positive rational `q`,
computed against the exact real logarithm. -/
def pyIntNegLog10 (q : ℚ) : ℤ :=
  if 1 ≤ q then -(Nat.log 10 ⌊q⌋.toNat : ℤ)
  else (Nat.log 10 ⌊1/q⌋.toNat : ℤ)

/-- `random.randint lo hi` outcome produced from an ambient draw,
clamped into `[lo, hi]`. -/
def clampDraw (lo hi draw : ℤ) : ℤ := max lo (min hi draw)

-- ====================================================================
-- `ratTrunc` / `roundHalfEven` basic lemmas

theorem ratTrunc_eq_floor {q : ℚ} (h : 0 ≤ q) : ratTrunc q = ⌊q⌋ := if_pos h

theorem ratTrunc_nonneg {q : ℚ} (h : 0 ≤ q) : 0 ≤ ratTrunc q := by
  rw [ratTrunc_eq_floor h]; exact Int.floor_nonneg.2 h

theorem abs_ratTrunc_le {q : ℚ} {m : ℤ} (h : |q| < (m : ℚ) + 1) :
    |ratTrunc q| ≤ m := by
  have habs : |ratTrunc q| = ⌊|q|⌋ := by
    unfold ratTrunc
    split
    · next h0 =>
      rw [abs_of_nonneg h0, abs_of_nonneg (Int.floor_nonneg.2 h0)]
    · next h0 =>
      push_neg at h0
      rw [abs_of_neg h0]
      have hceil : ⌈q⌉ ≤ 0 := Int.ceil_le.2 (by exact_mod_cast h0.le)
      rw [abs_of_nonpos hceil, ← Int.floor_neg]
  rw [habs]
  have : ⌊|q|⌋ < m + 1 := Int.floor_lt.2 (by exact_mod_cast h)
  omega

theorem clampDraw_mem (draw : ℤ) {lo hi : ℤ} (h : lo ≤ hi) :
    lo ≤ clampDraw lo hi draw ∧ clampDraw lo hi draw ≤ hi := by
  unfold clampDraw
  constructor
  · exact le_max_left _ _
  · exact max_le h (min_le_left _ _)

theorem roundHalfEven_err (q : ℚ) : |(roundHalfEven q : ℚ) - q| ≤ 1/2 := by
  have h0 : (⌊q⌋ : ℚ) ≤ q := Int.floor_le q
  have h1 : q < (⌊q⌋ : ℚ) + 1 := Int.lt_floor_add_one q
  unfold roundHalfEven
  split
  · next h => rw [abs_sub_comm, abs_of_nonneg (by linarith)]; linarith
  · next h =>
    push_neg at h
    split
    · next h2 => push_cast; rw [abs_of_nonneg (by linarith)]; linarith
    · next h2 =>
      push_neg at h2
      have : q - ⌊q⌋ = 1/2 := le_antisymm h2 h
      split
      · rw [abs_sub_comm, abs_of_nonneg (by linarith)]; linarith
      · push_cast; rw [abs_of_nonneg (by linarith)]; linarith

theorem pyRound_err (x : ℚ) (n : ℤ) :
    |pyRound x n - x| ≤ (1/2) * (10 : ℚ) ^ (-n) := by
  have hpow : (0 : ℚ) < 10 ^ n := zpow_pos (by norm_num) n
  have key : |(roundHalfEven (x * 10 ^ n) : ℚ) - x * 10 ^ n| ≤ 1/2 :=
    roundHalfEven_err _
  have hrw : pyRound x n - x
      = ((roundHalfEven (x * 10 ^ n) : ℚ) - x * 10 ^ n) / 10 ^ n := by
    unfold pyRound
    field_simp
    ring
  rw [hrw, abs_div, abs_of_pos hpow, div_le_iff₀ hpow, zpow_neg]
  calc |(roundHalfEven (x * 10 ^ n) : ℚ) - x * 10 ^ n| ≤ 1/2 := key
    _ = 1/2 * 1 := by ring
    _ ≤ 1/2 * (((10:ℚ) ^ n)⁻¹ * 10 ^ n) := by
        rw [inv_mul_cancel₀ (ne_of_gt hpow)]
    _ = 1/2 * ((10:ℚ)^n)⁻¹ * 10 ^ n := by ring

/-- If `x * 10^n` is an integer, Python's `round(x, n)` returns `x` exactly. -/
theorem pyRound_exact (x : ℚ) (n : ℤ) (m : ℤ) (h : x * 10 ^ n = (m : ℚ)) :
    pyRound x n = x := by
  have hpow : (0 : ℚ) < 10 ^ n := zpow_pos (by norm_num) n
  unfold pyRound roundHalfEven
  rw [h, Int.floor_intCast]
  rw [if_pos (by norm_num : (m : ℚ) - (m : ℚ) < 1/2)]
  rw [div_eq_iff (ne_of_gt hpow)]
  exact h.symm

/-- Half an ulp of Python's price-rounding precision
(`int(-math.log10 s) + 2` decimal places) is at most `s / 20`. -/
theorem half_ulp_le {s : ℚ} (hs : 0 < s) :
    (1/2) * (10 : ℚ) ^ (-(pyIntNegLog10 s + 2)) ≤ s / 20 := by
  unfold pyIntNegLog10
  split
  · next h1 =>
    set L := Nat.log 10 ⌊s⌋.toNat with hL
    have hfl : (1:ℤ) ≤ ⌊s⌋ := Int.le_floor.2 (by exact_mod_cast h1)
    have hne : ⌊s⌋.toNat ≠ 0 := by omega
    have hpow : (10:ℕ) ^ L ≤ ⌊s⌋.toNat := Nat.pow_log_le_self 10 hne
    have hpowq : ((10:ℚ)) ^ (L:ℕ) ≤ s := by
      have ha : ((10:ℕ)^L : ℚ) ≤ (⌊s⌋.toNat : ℚ) := by exact_mod_cast hpow
      have hb : ((⌊s⌋.toNat : ℤ) : ℚ) ≤ s := by
        rw [Int.toNat_of_nonneg (by omega)]; exact Int.floor_le s
      push_cast at ha hb ⊢
      linarith
    have hneg : -(-(L:ℤ) + 2) = (L:ℤ) - 2 := by ring
    rw [hneg]
    have hzp : (10:ℚ) ^ ((L:ℤ) - 2) = (10:ℚ) ^ (L:ℕ) / 100 := by
      rw [zpow_sub₀ (by norm_num : (10:ℚ) ≠ 0), zpow_natCast]
      norm_num
    rw [hzp]
    linarith
  · next h1 =>
    push_neg at h1
    have hinv : 1 < 1/s := by
      rw [lt_div_iff hs]; linarith
    set k := ⌊1/s⌋.toNat with hk
    set L := Nat.log 10 k with hL
    have hflk : (1:ℤ) ≤ ⌊1/s⌋ := Int.le_floor.2 (by exact_mod_cast hinv.le)
    have hkc : ((k:ℤ):ℚ) = (⌊1/s⌋ : ℚ) := by
      rw [hk, Int.toNat_of_nonneg (by omega)]
    have hlt : 1/s < (k : ℚ) + 1 := by
      have := Int.lt_floor_add_one (1/s)
      push_cast at hkc
      linarith [hkc ▸ this]
    have hkpow : k < 10 ^ (L + 1) := Nat.lt_pow_succ_log_self (by norm_num) k
    have hkpowq : (k : ℚ) + 1 ≤ (10:ℚ) ^ (L + 1 : ℕ) := by
      have : k + 1 ≤ 10 ^ (L + 1) := hkpow
      exact_mod_cast this
    have hP : (0:ℚ) < (10:ℚ) ^ (L + 1 : ℕ) := by positivity
    have key : 1 < s * (10:ℚ) ^ (L + 1 : ℕ) := by
      have h2 : 1/s < (10:ℚ) ^ (L + 1 : ℕ) := lt_of_lt_of_le hlt hkpowq
      rw [div_lt_iff hs] at h2
      linarith [h2]
    have hzp : (10:ℚ) ^ (-((L:ℤ) + 2)) = 1 / ((10:ℚ) ^ (L + 1 : ℕ) * 10) := by
      have h10 : ((L:ℤ) + 2) = ((L + 2 : ℕ) : ℤ) := by push_cast; ring
      have hps : (10:ℚ) ^ (L + 2 : ℕ) = (10:ℚ) ^ (L + 1 : ℕ) * 10 := by ring
      rw [zpow_neg, h10, zpow_natCast, hps, one_div]
    rw [hzp]
    have hfrac : 1 / (10:ℚ) ^ (L + 1 : ℕ) < s := by
      rw [div_lt_iff hP]
      linarith
    have hsplit : (1:ℚ)/2 * (1 / ((10:ℚ) ^ (L + 1 : ℕ) * 10))
        = (1 / (10:ℚ) ^ (L + 1 : ℕ)) / 20 := by
      field_simp
      ring
    rw [hsplit]
    linarith

-- ====================================================================
-- `split_int_quantity` (orders.py lines 158-172)

/-- The real-valued ideal part size `total / num_of_parts`
(`step` in the source). -/
def splitStep (total num_of_parts : ℤ) : ℚ := (total : ℚ) / (num_of_parts : ℚ)

/-- `diff = min(diff, int(step / 2))` from the source. -/
def splitMinDiff (total num_of_parts diff : ℤ) : ℤ :=
  min diff (ratTrunc (splitStep total num_of_parts / 2))

/-- `diff` after the source's clamping to `int(step / 2)` and rounding
down to an even number (`if diff % 2 == 1: diff -= 1`). -/
def splitClampedDiff (total num_of_parts diff : ℤ) : ℤ :=
  if splitMinDiff total num_of_parts diff % 2 = 1
  then splitMinDiff total num_of_parts diff - 1
  else splitMinDiff total num_of_parts diff

/-- The `i`-th perturbed interior cut point
`randint(int(step*i - diff/2), int(step*i + diff/2))`,
with the randint draw taken from the ambient stream. -/
def splitCutPoint (total num_of_parts d : ℤ) (draws : ℕ → ℤ) (i : ℕ) : ℤ :=
  clampDraw (ratTrunc (splitStep total num_of_parts * i - (d : ℚ) / 2))
    (ratTrunc (splitStep total num_of_parts * i + (d : ℚ) / 2))
    (draws i)

/-- The list `values` built by the source: `0`, the `num_of_parts - 1`
interior cut points, then `total`. -/
def splitValues (total num_of_parts diff : ℤ) (draws : ℕ → ℤ) : List ℤ :=
  0 :: (((List.range (num_of_parts.toNat - 1)).map
      (fun j => splitCutPoint total num_of_parts
        (splitClampedDiff total num_of_parts diff) draws (j + 1))) ++ [total])

/-- `[values[i] - values[i-1] for i in range(1, len(values))]`. -/
def succDiffs (values : List ℤ) : List ℤ :=
  (List.range (values.length - 1)).map
    (fun i => values.getD (i + 1) 0 - values.getD i 0)

/-- `split_int_quantity(total, num_of_parts, diff)` from the source, with the
randint draws taken from the ambient stream `draws`. -/
def split_int_quantity (total num_of_parts diff : ℤ) (draws : ℕ → ℤ) :
    List ℤ :=
  succDiffs (splitValues total num_of_parts diff draws)

/-- Closed form for the cut-point sequence: `0` at position `0`, the interior
cut points in between, `total` at position `num_of_parts`. -/
def splitValueAt (total num_of_parts diff : ℤ) (draws : ℕ → ℤ) (i : ℕ) : ℤ :=
  if i = 0 then 0
  else if i < num_of_parts.toNat then
    splitCutPoint total num_of_parts
      (splitClampedDiff total num_of_parts diff) draws i
  else total

-- ====================================================================
-- Characterization of `split_int_quantity`

theorem splitValues_eq_map_range (t p diff : ℤ) (dr : ℕ → ℤ) (hp : 1 ≤ p) :
    splitValues t p diff dr
      = (List.range (p.toNat + 1)).map (splitValueAt t p diff dr) := by
  obtain ⟨n, hn⟩ : ∃ n, p.toNat = n + 1 := ⟨p.toNat - 1, by omega⟩
  unfold splitValues
  rw [hn]
  simp only [Nat.add_sub_cancel]
  rw [List.range_succ_eq_map, List.map_cons, List.map_map]
  have h0 : splitValueAt t p diff dr 0 = 0 := by unfold splitValueAt; simp
  rw [h0]
  congr 1
  rw [List.range_succ, List.map_append, List.map_singleton]
  have hlast : (splitValueAt t p diff dr ∘ Nat.succ) n = t := by
    simp only [Function.comp_apply]
    unfold splitValueAt
    rw [if_neg (by omega), if_neg (by omega)]
  rw [hlast]
  congr 1
  apply List.map_congr_left
  intro j hj
  rw [List.mem_range] at hj
  simp only [Function.comp_apply]
  unfold splitValueAt
  rw [if_neg (by omega), if_pos (by omega)]

theorem split_eq_map_range (t p diff : ℤ) (dr : ℕ → ℤ) (hp : 1 ≤ p) :
    split_int_quantity t p diff dr
      = (List.range p.toNat).map
          (fun i => splitValueAt t p diff dr (i + 1)
            - splitValueAt t p diff dr i) := by
  unfold split_int_quantity succDiffs
  rw [splitValues_eq_map_range t p diff dr hp]
  rw [List.length_map, List.length_range]
  simp only [Nat.add_sub_cancel]
  apply List.map_congr_left
  intro i hi
  rw [List.mem_range] at hi
  have hget : ∀ j, j < p.toNat + 1 →
      ((List.range (p.toNat + 1)).map (splitValueAt t p diff dr)).getD j 0
        = splitValueAt t p diff dr j := by
    intro j hj
    rw [List.getD_eq_getElem?_getD, List.getElem?_map, List.getElem?_range hj]
    rfl
  rw [hget (i + 1) (by omega), hget i (by omega)]

theorem range_map_sub_sum (f : ℕ → ℤ) :
    ∀ n, ((List.range n).map (fun i => f (i + 1) - f i)).sum = f n - f 0
  | 0 => by simp
  | n + 1 => by
    rw [List.range_succ, List.map_append, List.sum_append,
      range_map_sub_sum f n]
    simp

-- ====================================================================
-- Arithmetic facts about the split parameters

theorem one_le_splitStep {t p : ℤ} (hp : 1 ≤ p) (ht : p ≤ t) :
    1 ≤ splitStep t p := by
  unfold splitStep
  have hp' : (0:ℚ) < (p : ℚ) := by exact_mod_cast lt_of_lt_of_le Int.zero_lt_one hp
  rw [le_div_iff₀ hp']
  have : (p : ℚ) ≤ (t : ℚ) := by exact_mod_cast ht
  linarith

theorem splitClampedDiff_nonneg {t p diff : ℤ} (hp : 1 ≤ p) (ht : p ≤ t)
    (hd : 0 ≤ diff) : 0 ≤ splitClampedDiff t p diff := by
  have hS : (0:ℚ) ≤ splitStep t p / 2 := by
    have := one_le_splitStep hp ht; linarith
  have h1 : 0 ≤ ratTrunc (splitStep t p / 2) := ratTrunc_nonneg hS
  have h2 : 0 ≤ splitMinDiff t p diff := le_min hd h1
  unfold splitClampedDiff
  split <;> omega

theorem splitClampedDiff_le_diff {t p diff : ℤ} :
    splitClampedDiff t p diff ≤ diff := by
  have h : splitMinDiff t p diff ≤ diff := min_le_left _ _
  unfold splitClampedDiff
  split <;> omega

theorem splitClampedDiff_le_half {t p : ℤ} (diff : ℤ) (hp : 1 ≤ p) (ht : p ≤ t) :
    (splitClampedDiff t p diff : ℚ) ≤ splitStep t p / 2 := by
  have hS : (0:ℚ) ≤ splitStep t p / 2 := by
    have := one_le_splitStep hp ht; linarith
  have h1 : splitMinDiff t p diff ≤ ⌊splitStep t p / 2⌋ := by
    unfold splitMinDiff
    rw [ratTrunc_eq_floor hS]
    exact min_le_right _ _
  have h2 : splitClampedDiff t p diff ≤ splitMinDiff t p diff := by
    unfold splitClampedDiff
    split <;> omega
  have h3 : (splitClampedDiff t p diff : ℚ) ≤ (⌊splitStep t p / 2⌋ : ℚ) := by
    exact_mod_cast le_trans h2 h1
  exact le_trans h3 (Int.floor_le _)

theorem one_le_step_sub_clamped {t p diff : ℤ} (hp : 1 ≤ p) (ht : p ≤ t)
    (hd : 0 ≤ diff) :
    (1:ℚ) ≤ splitStep t p - (splitClampedDiff t p diff : ℚ) := by
  have hS := one_le_splitStep hp ht
  have hD0 := splitClampedDiff_nonneg hp ht hd
  rcases eq_or_lt_of_le hD0 with h | h
  · rw [← h]; push_cast; linarith
  · have h1 : (1:ℤ) ≤ splitClampedDiff t p diff := h
    have h1' : (1:ℚ) ≤ (splitClampedDiff t p diff : ℚ) := by exact_mod_cast h1
    have h2 := splitClampedDiff_le_half diff hp ht
    linarith

theorem splitStep_mul_parts {t p : ℤ} (hp : 1 ≤ p) :
    splitStep t p * (p.toNat : ℚ) = (t : ℚ) := by
  unfold splitStep
  have h1 : ((p.toNat : ℤ) : ℚ) = (p : ℚ) := by
    rw [Int.toNat_of_nonneg (by omega)]
  have hp' : (p : ℚ) ≠ 0 := by
    have : (0:ℤ) < p := by omega
    exact_mod_cast ne_of_gt this
  push_cast at h1
  rw [h1, div_mul_cancel₀ _ hp']

-- ====================================================================
-- Bounds on cut points and entries of the split

theorem splitCutPoint_bounds {t p diff : ℤ} (dr : ℕ → ℤ) (hp : 1 ≤ p)
    (ht : p ≤ t) (hd : 0 ≤ diff) (k : ℕ) (hk1 : 1 ≤ k) :
    splitStep t p * k - (splitClampedDiff t p diff : ℚ) / 2 - 1
        < (splitCutPoint t p (splitClampedDiff t p diff) dr k : ℚ)
      ∧ (splitCutPoint t p (splitClampedDiff t p diff) dr k : ℚ)
        ≤ splitStep t p * k + (splitClampedDiff t p diff : ℚ) / 2 := by
  have hS := one_le_splitStep hp ht
  have hD0 : (0:ℚ) ≤ (splitClampedDiff t p diff : ℚ) := by
    exact_mod_cast splitClampedDiff_nonneg hp ht hd
  have hDS := one_le_step_sub_clamped hp ht hd
  have hk1' : (1:ℚ) ≤ (k : ℚ) := by exact_mod_cast hk1
  unfold splitCutPoint
  set S := splitStep t p with hSdef
  set Dq := (splitClampedDiff t p diff : ℚ) with hDdef
  have hSk : S ≤ S * k := by nlinarith
  have hlo : (0:ℚ) ≤ S * k - Dq / 2 := by linarith
  have hhi : (0:ℚ) ≤ S * k + Dq / 2 := by linarith
  rw [ratTrunc_eq_floor hlo, ratTrunc_eq_floor hhi]
  have hlohi : ⌊S * k - Dq / 2⌋ ≤ ⌊S * k + Dq / 2⌋ :=
    Int.floor_le_floor (by linarith)
  obtain ⟨hc1, hc2⟩ := clampDraw_mem (dr k) hlohi
  set c := clampDraw ⌊S * k - Dq / 2⌋ ⌊S * k + Dq / 2⌋ (dr k) with hcdef
  constructor
  · have h1 := Int.sub_one_lt_floor (S * k - Dq / 2)
    have h2 : ((⌊S * k - Dq / 2⌋ : ℤ) : ℚ) ≤ (c : ℚ) := by exact_mod_cast hc1
    linarith
  · have h1 := Int.floor_le (S * k + Dq / 2)
    have h2 : ((c : ℤ) : ℚ) ≤ ((⌊S * k + Dq / 2⌋ : ℤ) : ℚ) := by
      exact_mod_cast hc2
    linarith

theorem splitValueAt_bounds {t p diff : ℤ} (dr : ℕ → ℤ) (hp : 1 ≤ p)
    (ht : p ≤ t) (hd : 0 ≤ diff) (k : ℕ) (hk : k ≤ p.toNat) :
    splitStep t p * k - (splitClampedDiff t p diff : ℚ) / 2 - 1
        < (splitValueAt t p diff dr k : ℚ)
      ∧ (splitValueAt t p diff dr k : ℚ)
        ≤ splitStep t p * k + (splitClampedDiff t p diff : ℚ) / 2 := by
  have hS := one_le_splitStep hp ht
  have hD0 : (0:ℚ) ≤ (splitClampedDiff t p diff : ℚ) := by
    exact_mod_cast splitClampedDiff_nonneg hp ht hd
  unfold splitValueAt
  by_cases hk0 : k = 0
  · subst hk0
    rw [if_pos rfl]
    push_cast
    ring_nf
    constructor <;> linarith
  · rw [if_neg hk0]
    by_cases hkp : k < p.toNat
    · rw [if_pos hkp]
      exact splitCutPoint_bounds dr hp ht hd k (by omega)
    · rw [if_neg hkp]
      have hkk : k = p.toNat := by omega
      subst hkk
      have hmul := splitStep_mul_parts (t := t) hp
      constructor
      · linarith
      · linarith

theorem split_entry_bounds {t p diff : ℤ} (dr : ℕ → ℤ) (hp : 1 ≤ p)
    (ht : p ≤ t) (hd : 0 ≤ diff) :
    ∀ x ∈ split_int_quantity t p diff dr,
      1 ≤ x ∧ |(x : ℚ) - splitStep t p|
        < (splitClampedDiff t p diff : ℚ) + 1 := by
  intro x hx
  rw [split_eq_map_range t p diff dr hp, List.mem_map] at hx
  obtain ⟨i, hi, hxe⟩ := hx
  rw [List.mem_range] at hi
  obtain ⟨l1, u1⟩ := splitValueAt_bounds dr hp ht hd i (by omega)
  obtain ⟨l2, u2⟩ := splitValueAt_bounds dr hp ht hd (i + 1) (by omega)
  have hDS := one_le_step_sub_clamped hp ht hd
  have hD0 : (0:ℚ) ≤ (splitClampedDiff t p diff : ℚ) := by
    exact_mod_cast splitClampedDiff_nonneg hp ht hd
  have hcast : ((i + 1 : ℕ) : ℚ) = (i : ℚ) + 1 := by push_cast; ring
  rw [hcast] at l2 u2
  have hexp : splitStep t p * ((i : ℚ) + 1)
      = splitStep t p * (i : ℚ) + splitStep t p := by ring
  rw [hexp] at l2 u2
  subst hxe
  have hxq : ((splitValueAt t p diff dr (i + 1)
        - splitValueAt t p diff dr i : ℤ) : ℚ)
      = (splitValueAt t p diff dr (i + 1) : ℚ)
        - (splitValueAt t p diff dr i : ℚ) := by push_cast; ring
  constructor
  · have hpos : (0:ℚ) < ((splitValueAt t p diff dr (i + 1)
        - splitValueAt t p diff dr i : ℤ) : ℚ) := by
      rw [hxq]; linarith
    have : (0:ℤ) < splitValueAt t p diff dr (i + 1)
        - splitValueAt t p diff dr i := by exact_mod_cast hpos
    omega
  · rw [hxq, abs_lt]
    constructor
    · linarith
    · linarith

-- ====================================================================
-- Claims C1 and C3

/-- C1: for every call `split_int_quantity(total, parts, diff)` with
`total ≥ parts ≥ 1` and `diff ≥ 0`, and for every sequence of randomness
draws, the returned list has exactly `parts` entries, every entry is `≥ 1`,
and the entries sum exactly to `total`. -/
theorem split_int_quantity_C1 (total num_of_parts diff : ℤ) (draws : ℕ → ℤ)
    (hp : 1 ≤ num_of_parts) (ht : num_of_parts ≤ total) (hd : 0 ≤ diff) :
    ((split_int_quantity total num_of_parts diff draws).length : ℤ)
        = num_of_parts
      ∧ (∀ x ∈ split_int_quantity total num_of_parts diff draws, 1 ≤ x)
      ∧ (split_int_quantity total num_of_parts diff draws).sum = total := by
  refine ⟨?_, ?_, ?_⟩
  · rw [split_eq_map_range _ _ _ _ hp, List.length_map, List.length_range]
    omega
  · intro x hx
    exact (split_entry_bounds draws hp ht hd x hx).1
  · rw [split_eq_map_range _ _ _ _ hp, range_map_sub_sum]
    have h0 : splitValueAt total num_of_parts diff draws 0 = 0 := by
      unfold splitValueAt; simp
    have hn : splitValueAt total num_of_parts diff draws num_of_parts.toNat
        = total := by
      unfold splitValueAt
      rw [if_neg (by omega), if_neg (by omega)]
    rw [h0, hn]
    ring

/-- Witness for C1 at `split(10, 3, 2)` with the zero draw stream. -/
theorem split_int_quantity_C1_witness :
    ((1:ℤ) ≤ 3 ∧ (3:ℤ) ≤ 10 ∧ (0:ℤ) ≤ 2)
      ∧ (((split_int_quantity 10 3 2 (fun _ => 0)).length : ℤ) = 3
          ∧ (∀ x ∈ split_int_quantity 10 3 2 (fun _ => 0), 1 ≤ x)
          ∧ (split_int_quantity 10 3 2 (fun _ => 0)).sum = 10) :=
  ⟨⟨by norm_num, by norm_num, by norm_num⟩,
    split_int_quantity_C1 10 3 2 (fun _ => 0) (by norm_num) (by norm_num)
      (by norm_num)⟩

/-- C3 counterexample: `split(10, 3, 0)` returns `[3, 3, 4]` (here shown for
the zero draw stream; with diff `0` every draw stream gives the same result),
and the entry `4` deviates from `10/3` by `2/3 > 0 = diff`, so the claim's
real-valued deviation bound fails as stated. -/
theorem split_C3_counterexample :
    ¬ (∀ x ∈ split_int_quantity 10 3 0 (fun _ => 0),
        |(x : ℚ) - splitStep 10 3| ≤ (0 : ℚ)) := by
  intro h
  have h4 : (4:ℤ) ∈ split_int_quantity 10 3 0 (fun _ => 0) := by
    have he : split_int_quantity 10 3 0 (fun _ => 0) = [3, 3, 4] := by
      unfold split_int_quantity splitValues succDiffs splitCutPoint
        splitClampedDiff splitMinDiff splitStep ratTrunc clampDraw
      norm_num [List.range_succ, (by decide : Int.toNat 3 = 3)]
    rw [he]; simp
  have hc := h 4 h4
  unfold splitStep at hc
  rw [abs_le] at hc
  norm_num at hc

/-- C3 (amended): for `total ≥ parts ≥ 1`, `diff ≥ 0`, and every sequence of
randomness draws, no entry's deviation from `total/parts`, truncated to an
integer exactly as the repository's own test checks it
(`abs(int(val - total/parts)) <= diff`), exceeds `diff`; in particular the
final entry also never exceeds this bound. -/
theorem split_C3_amended (total num_of_parts diff : ℤ) (draws : ℕ → ℤ)
    (hp : 1 ≤ num_of_parts) (ht : num_of_parts ≤ total) (hd : 0 ≤ diff) :
    ∀ x ∈ split_int_quantity total num_of_parts diff draws,
      |ratTrunc ((x : ℚ) - splitStep total num_of_parts)| ≤ diff := by
  intro x hx
  have hb := (split_entry_bounds draws hp ht hd x hx).2
  have hDd : (splitClampedDiff total num_of_parts diff : ℚ) ≤ (diff : ℚ) := by
    exact_mod_cast splitClampedDiff_le_diff (t := total) (p := num_of_parts)
  exact abs_ratTrunc_le (lt_of_lt_of_le hb (by linarith))

/-- Witness for the amended C3 at `split(10, 3, 2)` with the zero draws. -/
theorem split_C3_amended_witness :
    ((1:ℤ) ≤ 3 ∧ (3:ℤ) ≤ 10 ∧ (0:ℤ) ≤ 2)
      ∧ (∀ x ∈ split_int_quantity 10 3 2 (fun _ => 0),
          |ratTrunc ((x : ℚ) - splitStep 10 3)| ≤ 2) :=
  ⟨⟨by norm_num, by norm_num, by norm_num⟩,
    split_C3_amended 10 3 2 (fun _ => 0) (by norm_num) (by norm_num)
      (by norm_num)⟩

-- ====================================================================
-- Data model (orders.py lines 25-81)

/-- `Side` enum. -/
inductive Side
  | SELL
  | BUY
  deriving DecidableEq

/-- `Constraints` dataclass: Binance quantization constraints. -/
structure Constraints where
  quantity_precision : ℤ
  quantity_step_size : ℚ
  price_step_size : ℚ
  deriving DecidableEq

/-- `Request` dataclass: the main incoming request. -/
structure Request where
  symbol : String
  usd_vol : ℚ
  usd_diff : ℚ
  splits : ℤ
  side : Side
  min_price : ℚ
  max_price : ℚ
  deriving DecidableEq

/-- `Order` dataclass.  `order_id` is the uuid4 string, modelled as the
index-valued output of the ambient id stream. -/
structure Order where
  order_id : ℕ
  symbol : String
  time_in_force : String
  quantity : ℚ
  price : ℚ
  side : Side
  type : String
  deriving DecidableEq

/-- `CreationStatus` dataclass. -/
structure CreationStatus where
  requested_base_quantity : ℚ
  actual_base_quantity : ℚ
  deriving DecidableEq

/-- `fuzzy_equals(a, b, tolerance=1e-8)`. -/
def fuzzy_equals (a b : ℚ) : Bool := |a - b| ≤ 1/100000000

/-- `CreationStatus.is_ok`. -/
def CreationStatus.is_ok (s : CreationStatus) : Bool :=
  fuzzy_equals s.requested_base_quantity s.actual_base_quantity

-- ====================================================================
-- `generate_orders` (orders.py lines 175-196)

/-- `int(req.usd_vol / avg_price / c.quantity_step_size)`: the requested
base quantity in integer quantity steps. -/
def intBaseQuantity (req : Request) (avg_price : ℚ) (c : Constraints) : ℤ :=
  ratTrunc (req.usd_vol / avg_price / c.quantity_step_size)

/-- `int(req.usd_diff / avg_price / c.quantity_step_size)`. -/
def intBaseQuantityDiff (req : Request) (avg_price : ℚ) (c : Constraints) :
    ℤ :=
  ratTrunc (req.usd_diff / avg_price / c.quantity_step_size)

/-- `round(int_quantity * quantity_step_size, quantity_precision)`. -/
def orderQuantity (c : Constraints) (int_quantity : ℤ) : ℚ :=
  pyRound ((int_quantity : ℚ) * c.quantity_step_size) c.quantity_precision

/-- `int(req.min_price / price_step_size)`. -/
def intMinPrice (req : Request) (c : Constraints) : ℤ :=
  ratTrunc (req.min_price / c.price_step_size)

/-- `int(req.max_price / price_step_size)`. -/
def intMaxPrice (req : Request) (c : Constraints) : ℤ :=
  ratTrunc (req.max_price / c.price_step_size)

/-- The per-order random price:
`int_price = randint(int_min_price, int_max_price)` followed by
`round(int_price * price_step_size, int(-log10(price_step_size)) + 2)`. -/
def orderPrice (req : Request) (c : Constraints) (pdraw : ℤ) : ℚ :=
  pyRound
    ((clampDraw (intMinPrice req c) (intMaxPrice req c) pdraw : ℚ)
      * c.price_step_size)
    (pyIntNegLog10 c.price_step_size + 2)

/-- One `Order` as constructed in the loop body of `generate_orders`. -/
def mkOrder (req : Request) (c : Constraints) (oid : ℕ)
    (pdraw int_quantity : ℤ) : Order :=
  { order_id := oid
    symbol := req.symbol
    time_in_force := "GTC"
    quantity := orderQuantity c int_quantity
    price := orderPrice req c pdraw
    side := req.side
    type := "LIMIT" }

/-- `generate_orders(req, avg_price, constraints)`: the `j`-th loop iteration
consumes the `j`-th uuid from `ids` and the `j`-th price draw from
`pdraws`. -/
def generate_orders (req : Request) (avg_price : ℚ) (c : Constraints)
    (qdraws pdraws : ℕ → ℤ) (ids : ℕ → ℕ) : List Order :=
  ((split_int_quantity (intBaseQuantity req avg_price c) req.splits
      (intBaseQuantityDiff req avg_price c) qdraws).enum).map
    (fun ji => mkOrder req c (ids ji.1) (pdraws ji.1) ji.2)

theorem generate_orders_length (req : Request) (avg_price : ℚ)
    (c : Constraints) (qdraws pdraws : ℕ → ℤ) (ids : ℕ → ℕ) :
    (generate_orders req avg_price c qdraws pdraws ids).length
      = (split_int_quantity (intBaseQuantity req avg_price c) req.splits
          (intBaseQuantityDiff req avg_price c) qdraws).length := by
  unfold generate_orders
  rw [List.length_map, List.enum_length]

theorem generate_orders_getElem (req : Request) (avg_price : ℚ)
    (c : Constraints) (qdraws pdraws : ℕ → ℤ) (ids : ℕ → ℕ) (j : ℕ)
    (hj : j < (generate_orders req avg_price c qdraws pdraws ids).length)
    (hj2 : j < (split_int_quantity (intBaseQuantity req avg_price c)
      req.splits (intBaseQuantityDiff req avg_price c) qdraws).length) :
    (generate_orders req avg_price c qdraws pdraws ids)[j]
      = mkOrder req c (ids j) (pdraws j)
          ((split_int_quantity (intBaseQuantity req avg_price c) req.splits
            (intBaseQuantityDiff req avg_price c) qdraws)[j]) := by
  unfold generate_orders at hj ⊢
  rw [List.getElem_map, List.getElem_enum]

theorem mem_generate_orders (req : Request) (avg_price : ℚ) (c : Constraints)
    (qdraws pdraws : ℕ → ℤ) (ids : ℕ → ℕ) (o : Order)
    (ho : o ∈ generate_orders req avg_price c qdraws pdraws ids) :
    ∃ j, ∃ hj : j < (split_int_quantity (intBaseQuantity req avg_price c)
        req.splits (intBaseQuantityDiff req avg_price c) qdraws).length,
      o = mkOrder req c (ids j) (pdraws j)
        ((split_int_quantity (intBaseQuantity req avg_price c) req.splits
          (intBaseQuantityDiff req avg_price c) qdraws)[j]) := by
  rw [List.mem_iff_getElem] at ho
  obtain ⟨j, hj, he⟩ := ho
  have hj' : j < (split_int_quantity (intBaseQuantity req avg_price c)
      req.splits (intBaseQuantityDiff req avg_price c) qdraws).length := by
    rw [← generate_orders_length req avg_price c qdraws pdraws ids]
    exact hj
  exact ⟨j, hj', by
    rw [← he,
      generate_orders_getElem req avg_price c qdraws pdraws ids j hj hj']⟩

theorem split_length {t p diff : ℤ} (dr : ℕ → ℤ) (hp : 1 ≤ p) :
    (split_int_quantity t p diff dr).length = p.toNat := by
  rw [split_eq_map_range _ _ _ _ hp, List.length_map, List.length_range]

-- ====================================================================
-- Price bounds (claim C2)

theorem orderPrice_bounds (req : Request) (c : Constraints) (pdraw : ℤ)
    (hps : 0 < c.price_step_size) (hmin : 0 < req.min_price)
    (hmm : req.min_price ≤ req.max_price) :
    req.min_price - c.price_step_size * (21/20) < orderPrice req c pdraw
      ∧ orderPrice req c pdraw
        ≤ req.max_price + c.price_step_size / 20 := by
  have hlo_pos : (0:ℚ) ≤ req.min_price / c.price_step_size :=
    div_nonneg hmin.le hps.le
  have hhi_pos : (0:ℚ) ≤ req.max_price / c.price_step_size :=
    div_nonneg (le_trans hmin.le hmm) hps.le
  have hlo : intMinPrice req c = ⌊req.min_price / c.price_step_size⌋ := by
    unfold intMinPrice; exact ratTrunc_eq_floor hlo_pos
  have hhi : intMaxPrice req c = ⌊req.max_price / c.price_step_size⌋ := by
    unfold intMaxPrice; exact ratTrunc_eq_floor hhi_pos
  have hlh : intMinPrice req c ≤ intMaxPrice req c := by
    rw [hlo, hhi]
    exact Int.floor_le_floor (by gcongr)
  obtain ⟨hk1, hk2⟩ := clampDraw_mem pdraw hlh
  set k := clampDraw (intMinPrice req c) (intMaxPrice req c) pdraw with hk
  have horder : orderPrice req c pdraw
      = pyRound ((k : ℚ) * c.price_step_size)
          (pyIntNegLog10 c.price_step_size + 2) := rfl
  have hks_low : req.min_price - c.price_step_size < (k:ℚ) * c.price_step_size := by
    have h1 : req.min_price / c.price_step_size - 1
        < (⌊req.min_price / c.price_step_size⌋ : ℚ) :=
      Int.sub_one_lt_floor _
    have h2 : ((intMinPrice req c : ℤ) : ℚ) ≤ (k : ℚ) := by exact_mod_cast hk1
    rw [hlo] at h2
    have h3 : req.min_price / c.price_step_size - 1 < (k:ℚ) :=
      lt_of_lt_of_le h1 h2
    have h4 : (req.min_price / c.price_step_size - 1) * c.price_step_size
        < (k:ℚ) * c.price_step_size := by
      exact mul_lt_mul_of_pos_right h3 hps
    calc req.min_price - c.price_step_size
        = (req.min_price / c.price_step_size - 1) * c.price_step_size := by
          field_simp
      _ < (k:ℚ) * c.price_step_size := h4
  have hks_high : (k:ℚ) * c.price_step_size ≤ req.max_price := by
    have h2 : ((k:ℤ):ℚ) ≤ (⌊req.max_price / c.price_step_size⌋ : ℚ) := by
      exact_mod_cast hhi ▸ hk2
    have h3 : (k:ℚ) ≤ req.max_price / c.price_step_size :=
      le_trans h2 (Int.floor_le _)
    calc (k:ℚ) * c.price_step_size
        ≤ (req.max_price / c.price_step_size) * c.price_step_size :=
          mul_le_mul_of_nonneg_right h3 hps.le
      _ = req.max_price := by field_simp
  have herr := pyRound_err ((k:ℚ) * c.price_step_size)
    (pyIntNegLog10 c.price_step_size + 2)
  have hulp := half_ulp_le hps
  rw [neg_add] at herr
  have herr2 : |orderPrice req c pdraw - (k:ℚ) * c.price_step_size|
      ≤ c.price_step_size / 20 := by
    rw [horder]
    calc |pyRound ((k:ℚ) * c.price_step_size)
          (pyIntNegLog10 c.price_step_size + 2)
          - (k:ℚ) * c.price_step_size|
        ≤ (1/2) * (10:ℚ) ^ (-(pyIntNegLog10 c.price_step_size + 2)) := by
          rw [neg_add]; exact herr
      _ ≤ c.price_step_size / 20 := hulp
  rw [abs_le] at herr2
  constructor
  · linarith [herr2.1]
  · linarith [herr2.2]

/-- C2 (amended): every generated order's price lies within
`(min_price − (21/20)·price_step, max_price + price_step/20]`: the
randomized grid price `int_price · price_step` lies in
`(min_price − price_step, max_price]` (the `int()` conversion of
`min_price / price_step` rounds the lower bound down, so the price can fall
up to one price step below `min_price`), and the final precision-rounding
moves it by at most `price_step / 20`. -/
theorem generate_orders_C2_amended (req : Request) (avg_price : ℚ)
    (c : Constraints) (qdraws pdraws : ℕ → ℤ) (ids : ℕ → ℕ)
    (hps : 0 < c.price_step_size) (hmin : 0 < req.min_price)
    (hmm : req.min_price ≤ req.max_price) :
    ∀ o ∈ generate_orders req avg_price c qdraws pdraws ids,
      req.min_price - c.price_step_size * (21/20) < o.price
        ∧ o.price ≤ req.max_price + c.price_step_size / 20 := by
  intro o ho
  obtain ⟨j, hj, he⟩ :=
    mem_generate_orders req avg_price c qdraws pdraws ids o ho
  have hprice : o.price = orderPrice req c (pdraws j) := by rw [he]; rfl
  rw [hprice]
  exact orderPrice_bounds req c (pdraws j) hps hmin hmm

/-- Scenario C request from the spec (§8) and the repository test suite. -/
def scenarioCReq : Request :=
  { symbol := "BTCUSDT", usd_vol := 10, usd_diff := 1, splits := 3
    side := Side.SELL, min_price := 2, max_price := 4 }

/-- Scenario C constraints from the spec (§8) and the repository tests. -/
def scenarioCCons : Constraints :=
  { quantity_precision := 5, quantity_step_size := 17/1000
    price_step_size := 7/100 }

/-- Witness for the amended C2 at scenario C. -/
theorem generate_orders_C2_amended_witness :
    ((0:ℚ) < scenarioCCons.price_step_size
        ∧ (0:ℚ) < scenarioCReq.min_price
        ∧ scenarioCReq.min_price ≤ scenarioCReq.max_price)
      ∧ (∀ o ∈ generate_orders scenarioCReq 3 scenarioCCons
            (fun _ => 0) (fun _ => 0) id,
          scenarioCReq.min_price - scenarioCCons.price_step_size * (21/20)
              < o.price
            ∧ o.price ≤ scenarioCReq.max_price
                + scenarioCCons.price_step_size / 20) :=
  ⟨⟨by norm_num [scenarioCCons], by norm_num [scenarioCReq],
      by norm_num [scenarioCReq]⟩,
    generate_orders_C2_amended scenarioCReq 3 scenarioCCons
      (fun _ => 0) (fun _ => 0) id (by norm_num [scenarioCCons])
      (by norm_num [scenarioCReq]) (by norm_num [scenarioCReq])⟩

theorem intMinPrice_scenarioC : intMinPrice scenarioCReq scenarioCCons = 28 := by
  unfold intMinPrice ratTrunc
  norm_num [scenarioCReq, scenarioCCons]

theorem intMaxPrice_scenarioC : intMaxPrice scenarioCReq scenarioCCons = 57 := by
  unfold intMaxPrice ratTrunc
  norm_num [scenarioCReq, scenarioCCons]

theorem pyIntNegLog10_scenarioC : pyIntNegLog10 (7/100 : ℚ) = 1 := by
  unfold pyIntNegLog10
  rw [if_neg (by norm_num)]
  have h14 : ⌊(1:ℚ)/(7/100)⌋ = 14 := by norm_num
  rw [h14]
  have ht : ((14:ℤ).toNat) = 14 := rfl
  rw [ht]
  have hl : Nat.log 10 14 = 1 :=
    Nat.log_eq_of_pow_le_of_lt_pow (by norm_num) (by norm_num)
  rw [hl]
  rfl

theorem orderPrice_scenarioC :
    orderPrice scenarioCReq scenarioCCons 0 = 49/25 := by
  show pyRound
      ((clampDraw (intMinPrice scenarioCReq scenarioCCons)
          (intMaxPrice scenarioCReq scenarioCCons) 0 : ℚ)
        * scenarioCCons.price_step_size)
      (pyIntNegLog10 scenarioCCons.price_step_size + 2) = 49/25
  rw [intMinPrice_scenarioC, intMaxPrice_scenarioC]
  have hstep : scenarioCCons.price_step_size = 7/100 := rfl
  rw [hstep, pyIntNegLog10_scenarioC]
  have hcl : clampDraw 28 57 0 = 28 := by unfold clampDraw; decide
  rw [hcl]
  unfold pyRound roundHalfEven
  norm_num

/-- C2 counterexample: in scenario C (`min_price = 2`, `price_step = 0.07`),
`int(2 / 0.07) = 28` and `28 * 0.07 = 1.96 < 2`, so when the price draw hits
the lower end the generated order's price falls below `min_price`: the claim
fails as stated. -/
theorem generate_orders_C2_counterexample :
    ¬ (∀ o ∈ generate_orders scenarioCReq 3 scenarioCCons
          (fun _ => 0) (fun _ => 0) id,
        scenarioCReq.min_price ≤ o.price) := by
  intro h
  have hsplits : (1:ℤ) ≤ scenarioCReq.splits := by norm_num [scenarioCReq]
  have hlen : (generate_orders scenarioCReq 3 scenarioCCons
      (fun _ => 0) (fun _ => 0) id).length = 3 := by
    rw [generate_orders_length, split_length _ hsplits]
    rfl
  have h0 : 0 < (generate_orders scenarioCReq 3 scenarioCCons
      (fun _ => 0) (fun _ => 0) id).length := by omega
  have h02 : 0 < (split_int_quantity
      (intBaseQuantity scenarioCReq 3 scenarioCCons) scenarioCReq.splits
      (intBaseQuantityDiff scenarioCReq 3 scenarioCCons)
      (fun _ => 0)).length := by
    rw [← generate_orders_length scenarioCReq 3 scenarioCCons
      (fun _ => 0) (fun _ => 0) id]
    omega
  have hc := h _ (List.getElem_mem h0)
  rw [generate_orders_getElem _ _ _ _ _ _ 0 h0 h02] at hc
  have hc2 : scenarioCReq.min_price ≤ orderPrice scenarioCReq scenarioCCons 0 :=
    hc
  rw [orderPrice_scenarioC] at hc2
  norm_num [scenarioCReq] at hc2

-- ====================================================================
-- Quantity invariants (claim C5) and order shape (claim C6)

theorem split_sum {t p diff : ℤ} (dr : ℕ → ℤ) (hp : 1 ≤ p) :
    (split_int_quantity t p diff dr).sum = t := by
  rw [split_eq_map_range _ _ _ _ hp, range_map_sub_sum]
  have h0 : splitValueAt t p diff dr 0 = 0 := by
    unfold splitValueAt; simp
  have hn : splitValueAt t p diff dr p.toNat = t := by
    unfold splitValueAt
    rw [if_neg (by omega), if_neg (by omega)]
  rw [h0, hn]
  ring

theorem sum_map_cast_mul (P : List ℤ) (s : ℚ) :
    (P.map (fun q : ℤ => (q : ℚ) * s)).sum = ((P.sum : ℤ) : ℚ) * s := by
  induction P with
  | nil => simp
  | cons a l ih =>
    rw [List.map_cons, List.sum_cons, List.sum_cons, ih]
    push_cast
    ring

theorem generate_orders_map_quantity (req : Request) (avg_price : ℚ)
    (c : Constraints) (qdraws pdraws : ℕ → ℤ) (ids : ℕ → ℕ) :
    (generate_orders req avg_price c qdraws pdraws ids).map Order.quantity
      = (split_int_quantity (intBaseQuantity req avg_price c) req.splits
          (intBaseQuantityDiff req avg_price c) qdraws).map
            (fun q => orderQuantity c q) := by
  unfold generate_orders
  rw [List.map_map]
  have hcomp : (Order.quantity ∘ fun ji : ℕ × ℤ =>
      mkOrder req c (ids ji.1) (pdraws ji.1) ji.2)
      = ((fun q => orderQuantity c q) ∘ Prod.snd) := rfl
  rw [hcomp, ← List.map_map, List.enum_map_snd]

theorem orderQuantity_exact (c : Constraints) (q m : ℤ)
    (hrep : c.quantity_step_size * 10 ^ c.quantity_precision = (m : ℚ)) :
    orderQuantity c q = (q : ℚ) * c.quantity_step_size := by
  unfold orderQuantity
  apply pyRound_exact _ _ (q * m)
  push_cast
  rw [← hrep]
  ring

/-- C5: for every valid request and constraints (positive average price and
step size, `1 ≤ splits ≤` the integer base quantity, nonnegative usd_diff,
and a step size exactly representable at the declared precision, i.e.
`quantity_step_size * 10 ^ quantity_precision` an integer), every generated
order has a positive quantity that is an integer multiple of
`quantity_step_size`, and the quantities sum to the requested base quantity
`usd_vol / avg_price` to within one `quantity_step_size`. -/
theorem generate_orders_C5 (req : Request) (avg_price : ℚ) (c : Constraints)
    (qdraws pdraws : ℕ → ℤ) (ids : ℕ → ℕ) (m : ℤ)
    (havg : 0 < avg_price) (hss : 0 < c.quantity_step_size)
    (hsp : 1 ≤ req.splits)
    (hvalid : req.splits ≤ intBaseQuantity req avg_price c)
    (hdiff : 0 ≤ req.usd_diff)
    (hrep : c.quantity_step_size * 10 ^ c.quantity_precision = (m : ℚ)) :
    (∀ o ∈ generate_orders req avg_price c qdraws pdraws ids,
        0 < o.quantity
          ∧ ∃ k : ℤ, 1 ≤ k ∧ o.quantity = (k : ℚ) * c.quantity_step_size)
      ∧ |((generate_orders req avg_price c qdraws pdraws ids).map
            Order.quantity).sum - req.usd_vol / avg_price|
          < c.quantity_step_size := by
  have hd0 : 0 ≤ intBaseQuantityDiff req avg_price c := by
    unfold intBaseQuantityDiff
    exact ratTrunc_nonneg (div_nonneg (div_nonneg hdiff havg.le) hss.le)
  constructor
  · intro o ho
    obtain ⟨j, hj, he⟩ :=
      mem_generate_orders req avg_price c qdraws pdraws ids o ho
    have hmem := List.getElem_mem hj
    have hq1 : 1 ≤ (split_int_quantity (intBaseQuantity req avg_price c)
        req.splits (intBaseQuantityDiff req avg_price c) qdraws)[j] :=
      (split_entry_bounds qdraws hsp hvalid hd0 _ hmem).1
    have hqty : o.quantity = ((split_int_quantity
        (intBaseQuantity req avg_price c) req.splits
        (intBaseQuantityDiff req avg_price c) qdraws)[j] : ℚ)
          * c.quantity_step_size := by
      rw [he]
      show orderQuantity c _ = _
      exact orderQuantity_exact c _ m hrep
    constructor
    · rw [hqty]
      have : (1:ℚ) ≤ ((split_int_quantity (intBaseQuantity req avg_price c)
          req.splits (intBaseQuantityDiff req avg_price c) qdraws)[j] : ℚ) :=
        by exact_mod_cast hq1
      nlinarith
    · exact ⟨_, hq1, hqty⟩
  · rw [generate_orders_map_quantity]
    have hmapc : (split_int_quantity (intBaseQuantity req avg_price c)
        req.splits (intBaseQuantityDiff req avg_price c) qdraws).map
          (fun q => orderQuantity c q)
        = (split_int_quantity (intBaseQuantity req avg_price c) req.splits
            (intBaseQuantityDiff req avg_price c) qdraws).map
              (fun q : ℤ => (q : ℚ) * c.quantity_step_size) := by
      apply List.map_congr_left
      intro q _
      exact orderQuantity_exact c q m hrep
    rw [hmapc, sum_map_cast_mul, split_sum qdraws hsp]
    have hx0 : 0 ≤ req.usd_vol / avg_price / c.quantity_step_size := by
      by_contra hneg
      push_neg at hneg
      have hceil : intBaseQuantity req avg_price c ≤ 0 := by
        unfold intBaseQuantity ratTrunc
        rw [if_neg (not_le.2 hneg)]
        exact Int.ceil_le.2 (by exact_mod_cast hneg.le)
      omega
    have hfl : intBaseQuantity req avg_price c
        = ⌊req.usd_vol / avg_price / c.quantity_step_size⌋ := by
      unfold intBaseQuantity
      exact ratTrunc_eq_floor hx0
    have hle : (intBaseQuantity req avg_price c : ℚ)
        ≤ req.usd_vol / avg_price / c.quantity_step_size := by
      rw [hfl]; exact Int.floor_le _
    have hlt : req.usd_vol / avg_price / c.quantity_step_size
        < (intBaseQuantity req avg_price c : ℚ) + 1 := by
      rw [hfl]; exact Int.lt_floor_add_one _
    have hmul1 : (intBaseQuantity req avg_price c : ℚ) * c.quantity_step_size
        ≤ req.usd_vol / avg_price := by
      have := mul_le_mul_of_nonneg_right hle hss.le
      rwa [div_mul_cancel₀ _ (ne_of_gt hss)] at this
    have hmul2 : req.usd_vol / avg_price
        < ((intBaseQuantity req avg_price c : ℚ) + 1)
            * c.quantity_step_size := by
      have := mul_lt_mul_of_pos_right hlt hss
      rwa [div_mul_cancel₀ _ (ne_of_gt hss)] at this
    rw [abs_lt]
    constructor
    · nlinarith
    · nlinarith

theorem intBaseQuantity_scenarioC :
    intBaseQuantity scenarioCReq 3 scenarioCCons = 196 := by
  unfold intBaseQuantity ratTrunc
  norm_num [scenarioCReq, scenarioCCons]

/-- Witness for C5 at scenario C with `avg_price = 3`. -/
theorem generate_orders_C5_witness :
    ((0:ℚ) < 3 ∧ (0:ℚ) < scenarioCCons.quantity_step_size
        ∧ (1:ℤ) ≤ scenarioCReq.splits
        ∧ scenarioCReq.splits ≤ intBaseQuantity scenarioCReq 3 scenarioCCons
        ∧ (0:ℚ) ≤ scenarioCReq.usd_diff
        ∧ scenarioCCons.quantity_step_size
            * 10 ^ scenarioCCons.quantity_precision = ((1700 : ℤ) : ℚ))
      ∧ ((∀ o ∈ generate_orders scenarioCReq 3 scenarioCCons
            (fun _ => 0) (fun _ => 0) id,
          0 < o.quantity
            ∧ ∃ k : ℤ, 1 ≤ k
                ∧ o.quantity = (k : ℚ) * scenarioCCons.quantity_step_size)
        ∧ |((generate_orders scenarioCReq 3 scenarioCCons
              (fun _ => 0) (fun _ => 0) id).map Order.quantity).sum
            - scenarioCReq.usd_vol / 3|
          < scenarioCCons.quantity_step_size) :=
  ⟨⟨by norm_num, by norm_num [scenarioCCons], by norm_num [scenarioCReq],
      by rw [intBaseQuantity_scenarioC]; norm_num [scenarioCReq],
      by norm_num [scenarioCReq],
      by norm_num [scenarioCCons]⟩,
    generate_orders_C5 scenarioCReq 3 scenarioCCons (fun _ => 0) (fun _ => 0)
      id 1700 (by norm_num) (by norm_num [scenarioCCons])
      (by norm_num [scenarioCReq])
      (by rw [intBaseQuantity_scenarioC]; norm_num [scenarioCReq])
      (by norm_num [scenarioCReq])
      (by norm_num [scenarioCCons])⟩

/-- C6: for every valid request (`1 ≤ splits ≤` integer base quantity) and
an injective uuid stream, `generate_orders` returns exactly `req.splits`
orders, with pairwise distinct order ids, each carrying the request's symbol
and side together with `time_in_force = "GTC"` and `type = "LIMIT"`. -/
theorem generate_orders_C6 (req : Request) (avg_price : ℚ) (c : Constraints)
    (qdraws pdraws : ℕ → ℤ) (ids : ℕ → ℕ)
    (hsp : 1 ≤ req.splits)
    (hvalid : req.splits ≤ intBaseQuantity req avg_price c)
    (hids : Function.Injective ids) :
    ((generate_orders req avg_price c qdraws pdraws ids).length : ℤ)
        = req.splits
      ∧ (∀ i j
          (hi : i < (generate_orders req avg_price c qdraws pdraws ids).length)
          (hj : j < (generate_orders req avg_price c qdraws pdraws ids).length),
          i ≠ j →
          ((generate_orders req avg_price c qdraws pdraws ids)[i]).order_id
            ≠ ((generate_orders req avg_price c qdraws pdraws ids)[j]).order_id)
      ∧ (∀ o ∈ generate_orders req avg_price c qdraws pdraws ids,
          o.symbol = req.symbol ∧ o.side = req.side
            ∧ o.time_in_force = "GTC" ∧ o.type = "LIMIT") := by
  refine ⟨?_, ?_, ?_⟩
  · rw [generate_orders_length, split_length _ hsp]
    omega
  · intro i j hi hj hne
    rw [generate_orders_getElem _ _ _ _ _ _ i hi (by
        rw [← generate_orders_length req avg_price c qdraws pdraws ids]
        exact hi),
      generate_orders_getElem _ _ _ _ _ _ j hj (by
        rw [← generate_orders_length req avg_price c qdraws pdraws ids]
        exact hj)]
    exact fun hcontra => hne (hids hcontra)
  · intro o ho
    obtain ⟨j, hj, he⟩ :=
      mem_generate_orders req avg_price c qdraws pdraws ids o ho
    rw [he]
    exact ⟨rfl, rfl, rfl, rfl⟩

/-- Witness for C6 at scenario C with `avg_price = 3` and the identity uuid
stream. -/
theorem generate_orders_C6_witness :
    ((1:ℤ) ≤ scenarioCReq.splits
        ∧ scenarioCReq.splits ≤ intBaseQuantity scenarioCReq 3 scenarioCCons
        ∧ Function.Injective (id : ℕ → ℕ))
      ∧ (((generate_orders scenarioCReq 3 scenarioCCons
            (fun _ => 0) (fun _ => 0) id).length : ℤ) = scenarioCReq.splits
        ∧ (∀ i j
            (hi : i < (generate_orders scenarioCReq 3 scenarioCCons
              (fun _ => 0) (fun _ => 0) id).length)
            (hj : j < (generate_orders scenarioCReq 3 scenarioCCons
              (fun _ => 0) (fun _ => 0) id).length),
            i ≠ j →
            ((generate_orders scenarioCReq 3 scenarioCCons
              (fun _ => 0) (fun _ => 0) id)[i]).order_id
              ≠ ((generate_orders scenarioCReq 3 scenarioCCons
                (fun _ => 0) (fun _ => 0) id)[j]).order_id)
        ∧ (∀ o ∈ generate_orders scenarioCReq 3 scenarioCCons
              (fun _ => 0) (fun _ => 0) id,
            o.symbol = scenarioCReq.symbol ∧ o.side = scenarioCReq.side
              ∧ o.time_in_force = "GTC" ∧ o.type = "LIMIT")) :=
  ⟨⟨by norm_num [scenarioCReq],
      by rw [intBaseQuantity_scenarioC]; norm_num [scenarioCReq],
      fun a b h => h⟩,
    generate_orders_C6 scenarioCReq 3 scenarioCCons (fun _ => 0) (fun _ => 0)
      id (by norm_num [scenarioCReq])
      (by rw [intBaseQuantity_scenarioC]; norm_num [scenarioCReq])
      (fun a b h => h)⟩

-- ====================================================================
-- Order submission with retries (orders.py lines 86-111)

/-- `MAX_RETRIES` constant. -/
def MAX_RETRIES : ℕ := 3

/-- Outcome of one `client.create_order` attempt: normal return, a
`BinanceAPIException` carrying its message, or any other exception. -/
inductive PlaceResult
  | success
  | apiError (message : String)
  | otherError
  deriving DecidableEq

/-- An attempt is terminal when the call returns normally, or raises the
`"Duplicate order sent."` API error (interpreted as success by the
source). -/
def isTerminalSuccess : PlaceResult → Bool
  | .success => true
  | .apiError msg => msg = "Duplicate order sent."
  | .otherError => false

/-- The observable content of one `client.create_order` call. -/
structure ApiCall where
  newClientOrderId : ℕ
  symbol : String
  quantity : ℚ
  price : ℚ
  deriving DecidableEq

/-- The API call that `create_order_with_retries` issues for `o` on every
attempt. -/
def orderApiCall (o : Order) : ApiCall :=
  { newClientOrderId := o.order_id, symbol := o.symbol
    quantity := o.quantity, price := o.price }

/-- The retry loop of `create_order_with_retries`: `fuel` remaining
attempts, `i` the index of the next attempt.  Returns the resulting
`CreationStatus` together with the trace of issued API calls. -/
def createOrderLoop (o : Order) (responses : ℕ → PlaceResult) :
    ℕ → ℕ → CreationStatus × List ApiCall
  | 0, _ => (⟨o.quantity, 0⟩, [])
  | fuel + 1, i =>
    if isTerminalSuccess (responses i) then
      (⟨o.quantity, o.quantity⟩, [orderApiCall o])
    else
      ((createOrderLoop o responses fuel (i + 1)).1,
        orderApiCall o :: (createOrderLoop o responses fuel (i + 1)).2)

/-- `create_order_with_retries(order, client)`, with attempt `i`'s outcome
given by `responses i`. -/
def create_order_with_retries (o : Order) (responses : ℕ → PlaceResult) :
    CreationStatus × List ApiCall :=
  createOrderLoop o responses MAX_RETRIES 0

/-- A sample order used by witnesses. -/
def sampleOrder : Order :=
  { order_id := 0, symbol := "ETHUSDT", time_in_force := "GTC"
    quantity := 1, price := 1903, side := Side.SELL, type := "LIMIT" }

/-- C4: `create_order_with_retries` always resolves to a `CreationStatus`
(it is a total function of the attempt outcomes; the source catches every
exception): if some of the at most 3 attempts returns success or the
duplicate-order API error, the result is
`requested = actual = order.quantity`; if all 3 attempts fail, the result is
`requested = order.quantity`, `actual = 0`. -/
theorem create_order_with_retries_C4 (o : Order)
    (responses : ℕ → PlaceResult) :
    ((∃ i, i < MAX_RETRIES ∧ isTerminalSuccess (responses i) = true) →
        (create_order_with_retries o responses).1
          = ⟨o.quantity, o.quantity⟩)
      ∧ ((∀ i, i < MAX_RETRIES → isTerminalSuccess (responses i) = false) →
        (create_order_with_retries o responses).1 = ⟨o.quantity, 0⟩) := by
  constructor
  · rintro ⟨i, hi, hterm⟩
    unfold create_order_with_retries MAX_RETRIES at *
    by_cases h0 : isTerminalSuccess (responses 0) = true
    · simp [createOrderLoop, h0]
    · by_cases h1 : isTerminalSuccess (responses 1) = true
      · simp [createOrderLoop, h0, h1]
      · by_cases h2 : isTerminalSuccess (responses 2) = true
        · simp [createOrderLoop, h0, h1, h2]
        · interval_cases i <;> simp_all
  · intro hall
    have h0 := hall 0 (by decide)
    have h1 := hall 1 (by decide)
    have h2 := hall 2 (by decide)
    unfold create_order_with_retries MAX_RETRIES
    simp [createOrderLoop, h0, h1, h2]

/-- Witness for C4: an all-success submitter yields the full quantity, an
all-failing submitter yields zero actual quantity. -/
theorem create_order_with_retries_C4_witness :
    ((create_order_with_retries sampleOrder (fun _ => PlaceResult.success)).1
        = ⟨sampleOrder.quantity, sampleOrder.quantity⟩)
      ∧ ((create_order_with_retries sampleOrder
          (fun _ => PlaceResult.otherError)).1
        = ⟨sampleOrder.quantity, 0⟩) :=
  ⟨(create_order_with_retries_C4 sampleOrder (fun _ => PlaceResult.success)).1
      ⟨0, by decide, rfl⟩,
    (create_order_with_retries_C4 sampleOrder
      (fun _ => PlaceResult.otherError)).2 (fun i _ => rfl)⟩

theorem createOrderLoop_trace_id (o : Order) (responses : ℕ → PlaceResult) :
    ∀ fuel i, ∀ call ∈ (createOrderLoop o responses fuel i).2,
      call.newClientOrderId = o.order_id := by
  intro fuel
  induction fuel with
  | zero =>
    intro i call hc
    simp [createOrderLoop] at hc
  | succ n ih =>
    intro i call hc
    simp only [createOrderLoop] at hc
    split at hc
    · simp at hc
      rw [hc]
      rfl
    · simp only [] at hc
      rcases List.mem_cons.1 hc with h | h
      · rw [h]; rfl
      · exact ih (i + 1) call h

theorem scenarioC_orders_length :
    (generate_orders scenarioCReq 3 scenarioCCons (fun _ => 0) (fun _ => 0)
      id).length = 3 := by
  rw [generate_orders_length,
    split_length _ (by norm_num [scenarioCReq] : (1:ℤ) ≤ scenarioCReq.splits)]
  rfl

/-- C7: every API call issued by `create_order_with_retries` (each retry
included) carries the same idempotency key `order.order_id`; the `j`-th
order of a generated batch carries the `j`-th uuid, drawn once in
`generate_orders` before any submission; and with a never-repeating uuid
stream no two orders of a batch share an idempotency key. -/
theorem idempotency_C7 :
    (∀ (o : Order) (responses : ℕ → PlaceResult),
        ∀ call ∈ (create_order_with_retries o responses).2,
          call.newClientOrderId = o.order_id)
      ∧ (∀ (req : Request) (avg_price : ℚ) (c : Constraints)
          (qdraws pdraws : ℕ → ℤ) (ids : ℕ → ℕ) (j : ℕ)
          (hj : j < (generate_orders req avg_price c
            qdraws pdraws ids).length),
          ((generate_orders req avg_price c qdraws pdraws ids)[j]).order_id
            = ids j)
      ∧ (∀ (req : Request) (avg_price : ℚ) (c : Constraints)
          (qdraws pdraws : ℕ → ℤ) (ids : ℕ → ℕ),
          Function.Injective ids →
          ∀ i j
            (hi : i < (generate_orders req avg_price c
              qdraws pdraws ids).length)
            (hj : j < (generate_orders req avg_price c
              qdraws pdraws ids).length),
            i ≠ j →
            ((generate_orders req avg_price c qdraws pdraws ids)[i]).order_id
              ≠ ((generate_orders req avg_price c
                qdraws pdraws ids)[j]).order_id) := by
  refine ⟨?_, ?_, ?_⟩
  · intro o responses call hc
    exact createOrderLoop_trace_id o responses MAX_RETRIES 0 call hc
  · intro req avg_price c qdraws pdraws ids j hj
    rw [generate_orders_getElem _ _ _ _ _ _ j hj (by
      rw [← generate_orders_length req avg_price c qdraws pdraws ids]
      exact hj)]
    rfl
  · intro req avg_price c qdraws pdraws ids hids i j hi hj hne
    rw [generate_orders_getElem _ _ _ _ _ _ i hi (by
        rw [← generate_orders_length req avg_price c qdraws pdraws ids]
        exact hi),
      generate_orders_getElem _ _ _ _ _ _ j hj (by
        rw [← generate_orders_length req avg_price c qdraws pdraws ids]
        exact hj)]
    exact fun hcontra => hne (hids hcontra)

/-- Witness for C7 at a concrete order and the scenario C batch. -/
theorem idempotency_C7_witness :
    (∀ call ∈ (create_order_with_retries sampleOrder
        (fun _ => PlaceResult.otherError)).2,
      call.newClientOrderId = sampleOrder.order_id)
    ∧ ((generate_orders scenarioCReq 3 scenarioCCons (fun _ => 0)
        (fun _ => 0) id).get
          ⟨0, by rw [scenarioC_orders_length]; norm_num⟩).order_id = id 0
    ∧ ((generate_orders scenarioCReq 3 scenarioCCons (fun _ => 0)
        (fun _ => 0) id).get
          ⟨0, by rw [scenarioC_orders_length]; norm_num⟩).order_id
      ≠ ((generate_orders scenarioCReq 3 scenarioCCons (fun _ => 0)
        (fun _ => 0) id).get
          ⟨1, by rw [scenarioC_orders_length]; norm_num⟩).order_id :=
  ⟨idempotency_C7.1 sampleOrder (fun _ => PlaceResult.otherError),
    idempotency_C7.2.1 scenarioCReq 3 scenarioCCons (fun _ => 0) (fun _ => 0)
      id 0 (by rw [scenarioC_orders_length]; norm_num),
    idempotency_C7.2.2 scenarioCReq 3 scenarioCCons (fun _ => 0) (fun _ => 0)
      id (fun a b h => h) 0 1
      (by rw [scenarioC_orders_length]; norm_num)
      (by rw [scenarioC_orders_length]; norm_num)
      (by norm_num)⟩

-- ====================================================================
-- Metadata retrieval with retries (orders.py lines 114-151)

/-- The shared retry loop of the two retrieval wrappers: attempt `i` either
raises (`none`) or produces a value; after `MAX_RETRIES` failed attempts the
Python function falls off the end of its loop and returns `None`. -/
def retryLoop {α : Type} (attempts : ℕ → Option α) : ℕ → ℕ → Option α
  | 0, _ => none
  | fuel + 1, i =>
    match attempts i with
    | some a => some a
    | none => retryLoop attempts fuel (i + 1)

/-- `get_avg_price_with_retries(symbol, client)`: attempt `i` either raises
(`none`) or returns the parsed price. -/
def get_avg_price_with_retries (attempts : ℕ → Option ℚ) : Option ℚ :=
  retryLoop attempts MAX_RETRIES 0

/-- One entry of the exchange-info filter list (only the keys the source
reads; a `none` field is an absent key). -/
structure FilterEntry where
  filterType : String
  stepSize : Option ℚ
  tickSize : Option ℚ
  deriving DecidableEq

/-- The symbol-info dict (only the keys the source reads; a `none` field is
an absent key). -/
structure SymbolInfoDict where
  baseAssetPrecision : Option ℤ
  filters : Option (List FilterEntry)
  deriving DecidableEq

/-- The defaults built first by the source:
`Constraints(quantity_precision=8, quantity_step_size=0.000001,
price_step_size=0.01)`. -/
def defaultConstraints : Constraints :=
  { quantity_precision := 8, quantity_step_size := 1/1000000
    price_step_size := 1/100 }

/-- The source's `next((f for f in filters if f['filterType'] == t), None)`. -/
def findFilter (fs : List FilterEntry) (t : String) : Option FilterEntry :=
  fs.find? (fun f => f.filterType == t)

/-- The body of `get_symbol_info_with_retries` applied to a successfully
retrieved dict (`none` = Python `None`): build the defaults, then override
each field whose key is present. -/
def extractConstraints (d : Option SymbolInfoDict) : Constraints :=
  match d with
  | none => defaultConstraints
  | some info =>
    let r1 :=
      match info.baseAssetPrecision with
      | some pr => { defaultConstraints with quantity_precision := pr }
      | none => defaultConstraints
    match info.filters with
    | none => r1
    | some fs =>
      let r2 :=
        match findFilter fs "LOT_SIZE" with
        | some f =>
          match f.stepSize with
          | some s => { r1 with quantity_step_size := s }
          | none => r1
        | none => r1
      match findFilter fs "PRICE_FILTER" with
      | some f =>
        match f.tickSize with
        | some s => { r2 with price_step_size := s }
        | none => r2
      | none => r2

/-- `get_symbol_info_with_retries(symbol, client)`. -/
def get_symbol_info_with_retries
    (attempts : ℕ → Option (Option SymbolInfoDict)) : Option Constraints :=
  (retryLoop attempts MAX_RETRIES 0).map extractConstraints

/-- The constraints described by the C10 claim, stated from the claim's own
words: defaults `8`, `1e-6`, `1e-2`, each overridden by the corresponding
metadata field when present (`baseAssetPrecision`, the LOT_SIZE filter's
`stepSize`, the PRICE_FILTER filter's `tickSize`).  To be compared with the
source-derived `extractConstraints`. -/
def specConstraints (d : Option SymbolInfoDict) : Constraints :=
  { quantity_precision := (d.bind SymbolInfoDict.baseAssetPrecision).getD 8
    quantity_step_size :=
      ((d.bind SymbolInfoDict.filters).bind
        (fun fs => (findFilter fs "LOT_SIZE").bind FilterEntry.stepSize)).getD
        (1/1000000)
    price_step_size :=
      ((d.bind SymbolInfoDict.filters).bind
        (fun fs => (findFilter fs "PRICE_FILTER").bind
          FilterEntry.tickSize)).getD (1/100) }

theorem extractConstraints_eq_spec (d : Option SymbolInfoDict) :
    extractConstraints d = specConstraints d := by
  rcases d with _ | ⟨bp, fl⟩
  · rfl
  · rcases fl with _ | fs
    · rcases bp with _ | pr <;> rfl
    · rcases hlot : findFilter fs "LOT_SIZE" with _ | ⟨ft1, ss1, ts1⟩ <;>
        rcases hpf : findFilter fs "PRICE_FILTER" with _ | ⟨ft2, ss2, ts2⟩ <;>
        rcases bp with _ | pr <;>
        (try rcases ss1 with _ | s1) <;>
        (try rcases ts2 with _ | t2) <;>
        simp [extractConstraints, specConstraints, defaultConstraints,
          hlot, hpf]

theorem retryLoop_exhaust {α : Type} (attempts : ℕ → Option α)
    (h : ∀ i, i < MAX_RETRIES → attempts i = none) :
    retryLoop attempts MAX_RETRIES 0 = none := by
  have h0 := h 0 (by decide)
  have h1 := h 1 (by decide)
  have h2 := h 2 (by decide)
  simp [MAX_RETRIES, retryLoop, h0, h1, h2]

theorem retryLoop_first_success {α : Type} (attempts : ℕ → Option α) (i : ℕ)
    (a : α) (hi : i < MAX_RETRIES) (hfirst : ∀ j, j < i → attempts j = none)
    (hsucc : attempts i = some a) :
    retryLoop attempts MAX_RETRIES 0 = some a := by
  unfold MAX_RETRIES at hi
  interval_cases i
  · simp [MAX_RETRIES, retryLoop, hsucc]
  · have h0 := hfirst 0 (by norm_num)
    simp [MAX_RETRIES, retryLoop, h0, hsucc]
  · have h0 := hfirst 0 (by norm_num)
    have h1 := hfirst 1 (by norm_num)
    simp [MAX_RETRIES, retryLoop, h0, h1, hsucc]

/-- C10: whenever the retrieved metadata is absent or partial,
`get_symbol_info_with_retries` returns the defaults `quantity_precision = 8`,
`quantity_step_size = 1e-6`, `price_step_size = 1e-2`, with each present
field (`baseAssetPrecision`, the LOT_SIZE filter's `stepSize`, the
PRICE_FILTER filter's `tickSize`) overriding the corresponding default:
whichever attempt first succeeds with dict `d`, the result is exactly the
claim-described `specConstraints d`. -/
theorem get_symbol_info_C10 (attempts : ℕ → Option (Option SymbolInfoDict))
    (i : ℕ) (d : Option SymbolInfoDict) (hi : i < MAX_RETRIES)
    (hfirst : ∀ j, j < i → attempts j = none) (hsucc : attempts i = some d) :
    get_symbol_info_with_retries attempts = some (specConstraints d) := by
  unfold get_symbol_info_with_retries
  rw [retryLoop_first_success attempts i d hi hfirst hsucc]
  simp [extractConstraints_eq_spec]

/-- Witness for C10: a first-attempt dict carrying only
`baseAssetPrecision = 5` yields precision 5 with the two default step
sizes. -/
theorem get_symbol_info_C10_witness :
    get_symbol_info_with_retries
        (fun _ => some (some ⟨some 5, none⟩))
      = some (specConstraints (some ⟨some 5, none⟩)) :=
  get_symbol_info_C10 (fun _ => some (some ⟨some 5, none⟩)) 0
    (some ⟨some 5, none⟩) (by decide) (fun j hj => absurd hj (by omega)) rfl

-- ====================================================================
-- Exception-aware pipeline (`process_request`, orders.py lines 202-213)

/-- The Python exceptions that can escape the pipeline. -/
inductive PyErr
  | assertionError
  | zeroDivisionError
  | valueErrorEmptyRandintRange
  | typeErrorNoneAvgPrice
  | attributeErrorNoneConstraints
  deriving DecidableEq

theorem ratTrunc_mono {a b : ℚ} (h : a ≤ b) : ratTrunc a ≤ ratTrunc b := by
  unfold ratTrunc
  split <;> split
  · exact Int.floor_le_floor h
  · next ha hb => exact absurd (le_trans ha h) hb
  · next ha hb =>
    push_neg at ha
    have h1 : ⌈a⌉ ≤ 0 := Int.ceil_le.2 (by exact_mod_cast ha.le)
    have h2 : 0 ≤ ⌊b⌋ := Int.floor_nonneg.2 hb
    omega
  · exact Int.ceil_le_ceil h

/-- `split_int_quantity` with its error behaviour: the `assert`, the
division by zero when `num_of_parts == 0`, and the `ValueError` raised by
`randint(lo, hi)` when `lo > hi`.  The guard holds exactly when every
interior randint range is nonempty; on a failing call Python produces no
value, so this is observably the same as raising at the first empty
range. -/
def split_int_quantityE (total num_of_parts diff : ℤ) (draws : ℕ → ℤ) :
    Except PyErr (List ℤ) :=
  if total < num_of_parts then .error .assertionError
  else if num_of_parts = 0 then .error .zeroDivisionError
  else if (List.range (num_of_parts.toNat - 1)).all (fun j =>
      decide (ratTrunc (splitStep total num_of_parts * ((j + 1 : ℕ) : ℚ)
          - (splitClampedDiff total num_of_parts diff : ℚ) / 2)
        ≤ ratTrunc (splitStep total num_of_parts * ((j + 1 : ℕ) : ℚ)
          + (splitClampedDiff total num_of_parts diff : ℚ) / 2))) then
    .ok (split_int_quantity total num_of_parts diff draws)
  else .error .valueErrorEmptyRandintRange

theorem split_int_quantityE_ok {t p diff : ℤ} (dr : ℕ → ℤ) (hp : 1 ≤ p)
    (ht : p ≤ t) (hd : 0 ≤ diff) :
    split_int_quantityE t p diff dr
      = .ok (split_int_quantity t p diff dr) := by
  have hD0 : (0:ℚ) ≤ (splitClampedDiff t p diff : ℚ) := by
    exact_mod_cast splitClampedDiff_nonneg hp ht hd
  unfold split_int_quantityE
  rw [if_neg (by omega), if_neg (by omega), if_pos]
  rw [List.all_eq_true]
  intro j _
  rw [decide_eq_true_eq]
  exact ratTrunc_mono (by linarith)

/-- `generate_orders` with its error behaviour: the errors of
`split_int_quantity`, plus the `ValueError` of the per-order price
`randint(int_min_price, int_max_price)` when that range is empty (reached
only when the loop body runs at least once). -/
def generate_ordersE (req : Request) (avg_price : ℚ) (c : Constraints)
    (qdraws pdraws : ℕ → ℤ) (ids : ℕ → ℕ) : Except PyErr (List Order) :=
  match split_int_quantityE (intBaseQuantity req avg_price c) req.splits
      (intBaseQuantityDiff req avg_price c) qdraws with
  | .error e => .error e
  | .ok parts =>
    if parts.length ≠ 0 ∧ intMaxPrice req c < intMinPrice req c then
      .error .valueErrorEmptyRandintRange
    else .ok (generate_orders req avg_price c qdraws pdraws ids)

/-- The submission loop of `process_request`: fold the per-order
`create_order_with_retries` results into one `CreationStatus`, collecting
every issued API call; `responses j i` is the outcome of attempt `i` for
order `j`. -/
def submitAll (orders : List Order) (responses : ℕ → ℕ → PlaceResult) :
    CreationStatus × List ApiCall :=
  orders.enum.foldl
    (fun acc ji =>
      (⟨acc.1.requested_base_quantity
          + (create_order_with_retries ji.2 (responses ji.1)).1.requested_base_quantity,
        acc.1.actual_base_quantity
          + (create_order_with_retries ji.2 (responses ji.1)).1.actual_base_quantity⟩,
        acc.2 ++ (create_order_with_retries ji.2 (responses ji.1)).2))
    (⟨0, 0⟩, [])

/-- `process_request(req, client)`: retrieve the average price and the
constraints, generate the orders, submit each sequentially.  A `none`
average price causes the fatal `TypeError` inside `generate_orders`
(`usd_vol / None`); `none` constraints cause the fatal `AttributeError`
(`None.quantity_step_size`); both happen before any order is created or
submitted. -/
def process_requestE (req : Request) (avgAttempts : ℕ → Option ℚ)
    (infoAttempts : ℕ → Option (Option SymbolInfoDict))
    (qdraws pdraws : ℕ → ℤ) (ids : ℕ → ℕ)
    (responses : ℕ → ℕ → PlaceResult) :
    Except PyErr (CreationStatus × List ApiCall) :=
  match get_avg_price_with_retries avgAttempts with
  | none => .error .typeErrorNoneAvgPrice
  | some avg_price =>
    match get_symbol_info_with_retries infoAttempts with
    | none => .error .attributeErrorNoneConstraints
    | some c =>
      match generate_ordersE req avg_price c qdraws pdraws ids with
      | .error e => .error e
      | .ok orders => .ok (submitAll orders responses)

/-- C9 counterexample: with every attempt failing (here the always-raising
attempt stream), `get_avg_price_with_retries` does not fail with any error:
it falls off its retry loop and returns Python `None` — in the embedding,
`Option.none`, a normal return value of the function's actual type, not an
exception; no `RetrievalError` class exists anywhere in the repository.
The error that later kills the request is the `TypeError` raised by
`usd_vol / None` inside `generate_orders`, a consequence of the `None`
return, not a retrieval error raised by the wrapper — refuting the claim
that the function "fails with a RetrievalError". -/
theorem get_avg_price_C9_counterexample :
    get_avg_price_with_retries (fun _ => none) = Option.none
      ∧ process_requestE scenarioCReq (fun _ => none) (fun _ => some none)
          (fun _ => 0) (fun _ => 0) id (fun _ _ => PlaceResult.success)
        = .error PyErr.typeErrorNoneAvgPrice :=
  ⟨rfl, rfl⟩

/-- C9 (amended): when every one of its 3 attempts fails,
`get_avg_price_with_retries` raises nothing and returns `None` (there is no
`RetrievalError` in the code); the `None` then causes the fatal `TypeError`
inside `generate_orders`, so persistent metadata-retrieval failure is still
fatal to the whole request and no order is generated or submitted;
`get_symbol_info_with_retries` follows the same
return-`None`-on-exhaustion contract. -/
theorem retrieval_C9 (avgAttempts : ℕ → Option ℚ)
    (infoAttempts : ℕ → Option (Option SymbolInfoDict))
    (havg : ∀ i, i < MAX_RETRIES → avgAttempts i = none)
    (hinfo : ∀ i, i < MAX_RETRIES → infoAttempts i = none) :
    get_avg_price_with_retries avgAttempts = none
      ∧ get_symbol_info_with_retries infoAttempts = none
      ∧ (∀ (req : Request) (qdraws pdraws : ℕ → ℤ) (ids : ℕ → ℕ)
          (responses : ℕ → ℕ → PlaceResult)
          (infoAttempts2 : ℕ → Option (Option SymbolInfoDict)),
          process_requestE req avgAttempts infoAttempts2 qdraws pdraws ids
            responses = .error PyErr.typeErrorNoneAvgPrice) := by
  have h1 : get_avg_price_with_retries avgAttempts = none :=
    retryLoop_exhaust avgAttempts havg
  refine ⟨h1, ?_, ?_⟩
  · unfold get_symbol_info_with_retries
    rw [retryLoop_exhaust infoAttempts hinfo]
    rfl
  · intro req qdraws pdraws ids responses infoAttempts2
    unfold process_requestE
    rw [h1]

/-- Witness for C9: always-raising attempt streams. -/
theorem retrieval_C9_witness :
    get_avg_price_with_retries (fun _ => none) = none
      ∧ get_symbol_info_with_retries (fun _ => none) = none
      ∧ (∀ (req : Request) (qdraws pdraws : ℕ → ℤ) (ids : ℕ → ℕ)
          (responses : ℕ → ℕ → PlaceResult)
          (infoAttempts2 : ℕ → Option (Option SymbolInfoDict)),
          process_requestE req (fun _ => none) infoAttempts2 qdraws pdraws
            ids responses = .error PyErr.typeErrorNoneAvgPrice) :=
  retrieval_C9 (fun _ => none) (fun _ => none) (fun _ _ => rfl)
    (fun _ _ => rfl)

-- ====================================================================
-- Degenerate requests (claim C8)

theorem split_int_quantity_neg_parts {t p diff : ℤ} (dr : ℕ → ℤ)
    (hp : p < 0) : split_int_quantity t p diff dr = [t] := by
  unfold split_int_quantity splitValues succDiffs
  have h0 : p.toNat - 1 = 0 := by omega
  rw [h0]
  simp [List.range_succ]

theorem split_int_quantityE_neg_parts {t p diff : ℤ} (dr : ℕ → ℤ)
    (hp : p < 0) (ht : 0 ≤ t) :
    split_int_quantityE t p diff dr = .ok [t] := by
  unfold split_int_quantityE
  rw [if_neg (by omega), if_neg (by omega)]
  have h0 : p.toNat - 1 = 0 := by omega
  rw [h0, if_pos (by simp)]
  rw [split_int_quantity_neg_parts dr hp]

theorem generate_ordersE_neg_splits (req : Request) (avg_price : ℚ)
    (c : Constraints) (qdraws pdraws : ℕ → ℤ) (ids : ℕ → ℕ)
    (hneg : req.splits < 0) (hbq : 0 ≤ intBaseQuantity req avg_price c)
    (hpr : intMinPrice req c ≤ intMaxPrice req c) :
    generate_ordersE req avg_price c qdraws pdraws ids
      = .ok [mkOrder req c (ids 0) (pdraws 0)
          (intBaseQuantity req avg_price c)] := by
  have hg : generate_orders req avg_price c qdraws pdraws ids
      = [mkOrder req c (ids 0) (pdraws 0)
          (intBaseQuantity req avg_price c)] := by
    unfold generate_orders
    rw [split_int_quantity_neg_parts qdraws hneg]
    rfl
  have hcond : ¬ (([intBaseQuantity req avg_price c].length ≠ 0)
      ∧ intMaxPrice req c < intMinPrice req c) := by
    intro hand
    exact absurd hand.2 (not_lt.2 hpr)
  simp only [generate_ordersE,
    split_int_quantityE_neg_parts qdraws hneg hbq]
  simp [hcond, hg]
  exact hpr

theorem generate_ordersE_zero_splits (req : Request) (avg_price : ℚ)
    (c : Constraints) (qdraws pdraws : ℕ → ℤ) (ids : ℕ → ℕ)
    (h0 : req.splits = 0) (hbq : 0 ≤ intBaseQuantity req avg_price c) :
    generate_ordersE req avg_price c qdraws pdraws ids
      = .error .zeroDivisionError := by
  have hsplit : split_int_quantityE (intBaseQuantity req avg_price c)
      req.splits (intBaseQuantityDiff req avg_price c) qdraws
      = .error .zeroDivisionError := by
    unfold split_int_quantityE
    rw [h0, if_neg (by omega), if_pos rfl]
  simp only [generate_ordersE, hsplit]

theorem generate_ordersE_empty_price_range (req : Request) (avg_price : ℚ)
    (c : Constraints) (qdraws pdraws : ℕ → ℤ) (ids : ℕ → ℕ)
    (hsp : 1 ≤ req.splits)
    (hvalid : req.splits ≤ intBaseQuantity req avg_price c)
    (hd : 0 ≤ intBaseQuantityDiff req avg_price c)
    (hpr : intMaxPrice req c < intMinPrice req c) :
    generate_ordersE req avg_price c qdraws pdraws ids
      = .error .valueErrorEmptyRandintRange := by
  have hlen : (split_int_quantity (intBaseQuantity req avg_price c)
      req.splits (intBaseQuantityDiff req avg_price c) qdraws).length ≠ 0 := by
    rw [split_length qdraws hsp]
    omega
  simp only [generate_ordersE, split_int_quantityE_ok qdraws hsp hvalid hd]
  rw [if_pos ⟨hlen, hpr⟩]

theorem process_requestE_gen_error (req : Request) (avgA : ℕ → Option ℚ)
    (infoA : ℕ → Option (Option SymbolInfoDict)) (qdraws pdraws : ℕ → ℤ)
    (ids : ℕ → ℕ) (resp : ℕ → ℕ → PlaceResult) (a : ℚ) (c : Constraints)
    (e : PyErr) (ha : get_avg_price_with_retries avgA = some a)
    (hc : get_symbol_info_with_retries infoA = some c)
    (hg : generate_ordersE req a c qdraws pdraws ids = .error e) :
    process_requestE req avgA infoA qdraws pdraws ids resp = .error e := by
  simp only [process_requestE, ha, hc, hg]

theorem process_requestE_gen_ok (req : Request) (avgA : ℕ → Option ℚ)
    (infoA : ℕ → Option (Option SymbolInfoDict)) (qdraws pdraws : ℕ → ℤ)
    (ids : ℕ → ℕ) (resp : ℕ → ℕ → PlaceResult) (a : ℚ) (c : Constraints)
    (os : List Order) (ha : get_avg_price_with_retries avgA = some a)
    (hc : get_symbol_info_with_retries infoA = some c)
    (hg : generate_ordersE req a c qdraws pdraws ids = .ok os) :
    process_requestE req avgA infoA qdraws pdraws ids resp
      = .ok (submitAll os resp) := by
  simp only [process_requestE, ha, hc, hg]

/-- A malformed request with `splits = -1` (other fields well-formed). -/
def negSplitsReq : Request :=
  { symbol := "ETHUSDT", usd_vol := 100, usd_diff := 1, splits := -1
    side := Side.SELL, min_price := 1903, max_price := 1913 }

theorem intBaseQuantity_negSplits :
    intBaseQuantity negSplitsReq 2000 defaultConstraints = 50000 := by
  unfold intBaseQuantity ratTrunc
  norm_num [negSplitsReq, defaultConstraints]

theorem intMinPrice_negSplits :
    intMinPrice negSplitsReq defaultConstraints = 190300 := by
  unfold intMinPrice ratTrunc
  norm_num [negSplitsReq, defaultConstraints]

theorem intMaxPrice_negSplits :
    intMaxPrice negSplitsReq defaultConstraints = 191300 := by
  unfold intMaxPrice ratTrunc
  norm_num [negSplitsReq, defaultConstraints]

theorem pyIntNegLog10_default : pyIntNegLog10 (1/100 : ℚ) = 2 := by
  unfold pyIntNegLog10
  rw [if_neg (by norm_num)]
  have h100 : ⌊(1:ℚ)/(1/100)⌋ = 100 := by norm_num
  rw [h100]
  have ht : ((100:ℤ).toNat) = 100 := rfl
  rw [ht]
  have hl : Nat.log 10 100 = 2 :=
    Nat.log_eq_of_pow_le_of_lt_pow (by norm_num) (by norm_num)
  rw [hl]
  rfl

theorem orderQuantity_negSplits :
    orderQuantity defaultConstraints 50000 = 1/20 := by
  unfold orderQuantity
  have hx : ((50000:ℤ):ℚ) * defaultConstraints.quantity_step_size
      = 1/20 := by norm_num [defaultConstraints]
  rw [hx]
  apply pyRound_exact _ _ 5000000
  norm_num [defaultConstraints]

theorem orderPrice_negSplits :
    orderPrice negSplitsReq defaultConstraints 0 = 1903 := by
  show pyRound
      ((clampDraw (intMinPrice negSplitsReq defaultConstraints)
          (intMaxPrice negSplitsReq defaultConstraints) 0 : ℚ)
        * defaultConstraints.price_step_size)
      (pyIntNegLog10 defaultConstraints.price_step_size + 2) = 1903
  rw [intMinPrice_negSplits, intMaxPrice_negSplits]
  have hstep : defaultConstraints.price_step_size = 1/100 := rfl
  rw [hstep, pyIntNegLog10_default]
  have hcl : clampDraw 190300 191300 0 = 190300 := by
    unfold clampDraw; decide
  rw [hcl]
  have : ((190300 : ℤ) : ℚ) * (1/100) = 1903 := by norm_num
  rw [this]
  apply pyRound_exact _ _ 19030000
  norm_num

/-- C8 counterexample: the malformed request `splits = -1` is not rejected:
with successful metadata retrieval and an accepting exchange,
`process_request` generates one order for the whole quantized quantity
(`0.05` of the base asset at price `1903`) and submits it — one API call is
issued — contradicting "rejected before any order generation occurs" and
"no orders are generated or submitted". -/
theorem process_request_C8_counterexample :
    process_requestE negSplitsReq (fun _ => some 2000) (fun _ => some none)
        (fun _ => 0) (fun _ => 0) id (fun _ _ => PlaceResult.success)
      = .ok (⟨1/20, 1/20⟩,
          [{ newClientOrderId := 0, symbol := "ETHUSDT"
             quantity := 1/20, price := 1903 }]) := by
  have ha : get_avg_price_with_retries (fun _ => some 2000)
      = some 2000 := rfl
  have hc : get_symbol_info_with_retries (fun _ => some none)
      = some defaultConstraints := rfl
  have hg : generate_ordersE negSplitsReq 2000 defaultConstraints
      (fun _ => 0) (fun _ => 0) id
      = .ok [mkOrder negSplitsReq defaultConstraints 0 0 50000] := by
    rw [generate_ordersE_neg_splits negSplitsReq 2000 defaultConstraints
      (fun _ => 0) (fun _ => 0) id (by norm_num [negSplitsReq])
      (by rw [intBaseQuantity_negSplits]; norm_num)
      (by rw [intMinPrice_negSplits, intMaxPrice_negSplits]; norm_num)]
    rw [intBaseQuantity_negSplits]
    rfl
  rw [process_requestE_gen_ok negSplitsReq (fun _ => some 2000)
    (fun _ => some none) (fun _ => 0) (fun _ => 0) id
    (fun _ _ => PlaceResult.success) 2000 defaultConstraints
    [mkOrder negSplitsReq defaultConstraints 0 0 50000] ha hc hg]
  have hsub : submitAll [mkOrder negSplitsReq defaultConstraints 0 0 50000]
      (fun _ _ => PlaceResult.success)
      = (⟨0 + (mkOrder negSplitsReq defaultConstraints 0 0 50000).quantity,
          0 + (mkOrder negSplitsReq defaultConstraints 0 0 50000).quantity⟩,
        [orderApiCall (mkOrder negSplitsReq defaultConstraints 0 0 50000)]) :=
    rfl
  rw [hsub]
  have hq : (mkOrder negSplitsReq defaultConstraints 0 0 50000).quantity
      = 1/20 := orderQuantity_negSplits
  have hp : (mkOrder negSplitsReq defaultConstraints 0 0 50000).price
      = 1903 := orderPrice_negSplits
  have hcall : orderApiCall (mkOrder negSplitsReq defaultConstraints 0 0 50000)
      = { newClientOrderId := 0, symbol := "ETHUSDT"
          quantity := 1/20, price := 1903 } := by
    unfold orderApiCall
    rw [hq, hp]
    rfl
  rw [hq, hcall]
  norm_num

/-- C8 (amended): the code performs no up-front request validation.  A
request with `splits < 0` is not rejected: generation returns a single
order for the whole quantized quantity and `process_request` submits it.
`splits = 0` raises `ZeroDivisionError` during generation, and an inverted
quantized price range raises `ValueError` at the first price draw; those
failures are fatal and nothing is submitted, but they occur during
generation, not as an up-front rejection. -/
theorem process_request_C8_amended :
    (∀ (req : Request) (avg_price : ℚ) (c : Constraints)
        (qdraws pdraws : ℕ → ℤ) (ids : ℕ → ℕ),
        req.splits < 0 → 0 ≤ intBaseQuantity req avg_price c →
        intMinPrice req c ≤ intMaxPrice req c →
        generate_ordersE req avg_price c qdraws pdraws ids
          = .ok [mkOrder req c (ids 0) (pdraws 0)
              (intBaseQuantity req avg_price c)])
      ∧ (∀ (req : Request) (avgA : ℕ → Option ℚ)
          (infoA : ℕ → Option (Option SymbolInfoDict))
          (qdraws pdraws : ℕ → ℤ) (ids : ℕ → ℕ)
          (resp : ℕ → ℕ → PlaceResult) (a : ℚ) (c : Constraints)
          (os : List Order),
          get_avg_price_with_retries avgA = some a →
          get_symbol_info_with_retries infoA = some c →
          generate_ordersE req a c qdraws pdraws ids = .ok os →
          process_requestE req avgA infoA qdraws pdraws ids resp
            = .ok (submitAll os resp))
      ∧ (∀ (req : Request) (avg_price : ℚ) (c : Constraints)
          (qdraws pdraws : ℕ → ℤ) (ids : ℕ → ℕ),
          req.splits = 0 → 0 ≤ intBaseQuantity req avg_price c →
          generate_ordersE req avg_price c qdraws pdraws ids
            = .error PyErr.zeroDivisionError)
      ∧ (∀ (req : Request) (avg_price : ℚ) (c : Constraints)
          (qdraws pdraws : ℕ → ℤ) (ids : ℕ → ℕ),
          1 ≤ req.splits → req.splits ≤ intBaseQuantity req avg_price c →
          0 ≤ intBaseQuantityDiff req avg_price c →
          intMaxPrice req c < intMinPrice req c →
          generate_ordersE req avg_price c qdraws pdraws ids
            = .error PyErr.valueErrorEmptyRandintRange)
      ∧ (∀ (req : Request) (avgA : ℕ → Option ℚ)
          (infoA : ℕ → Option (Option SymbolInfoDict))
          (qdraws pdraws : ℕ → ℤ) (ids : ℕ → ℕ)
          (resp : ℕ → ℕ → PlaceResult) (a : ℚ) (c : Constraints)
          (e : PyErr),
          get_avg_price_with_retries avgA = some a →
          get_symbol_info_with_retries infoA = some c →
          generate_ordersE req a c qdraws pdraws ids = .error e →
          process_requestE req avgA infoA qdraws pdraws ids resp
            = .error e) :=
  ⟨fun req a c qd pd ids h1 h2 h3 =>
      generate_ordersE_neg_splits req a c qd pd ids h1 h2 h3,
    fun req avgA infoA qd pd ids resp a c os h1 h2 h3 =>
      process_requestE_gen_ok req avgA infoA qd pd ids resp a c os h1 h2 h3,
    fun req a c qd pd ids h1 h2 =>
      generate_ordersE_zero_splits req a c qd pd ids h1 h2,
    fun req a c qd pd ids h1 h2 h3 h4 =>
      generate_ordersE_empty_price_range req a c qd pd ids h1 h2 h3 h4,
    fun req avgA infoA qd pd ids resp a c e h1 h2 h3 =>
      process_requestE_gen_error req avgA infoA qd pd ids resp a c e h1 h2 h3⟩

/-- Witness for the amended C8: the `splits = -1` request yields exactly one
generated and submitted order, and a `splits = 0` variant dies with
`ZeroDivisionError`. -/
theorem process_request_C8_amended_witness :
    (generate_ordersE negSplitsReq 2000 defaultConstraints (fun _ => 0)
        (fun _ => 0) id
      = .ok [mkOrder negSplitsReq defaultConstraints (id 0) 0
          (intBaseQuantity negSplitsReq 2000 defaultConstraints)])
    ∧ (generate_ordersE { negSplitsReq with splits := 0 } 2000
        defaultConstraints (fun _ => 0) (fun _ => 0) id
      = .error PyErr.zeroDivisionError) :=
  ⟨process_request_C8_amended.1 negSplitsReq 2000 defaultConstraints
      (fun _ => 0) (fun _ => 0) id (by norm_num [negSplitsReq])
      (by rw [intBaseQuantity_negSplits]; norm_num)
      (by rw [intMinPrice_negSplits, intMaxPrice_negSplits]; norm_num),
    process_request_C8_amended.2.2.1 { negSplitsReq with splits := 0 } 2000
      defaultConstraints (fun _ => 0) (fun _ => 0) id rfl
      (by
        have : intBaseQuantity { negSplitsReq with splits := 0 } 2000
            defaultConstraints = 50000 := by
          unfold intBaseQuantity ratTrunc
          norm_num [negSplitsReq, defaultConstraints]
        rw [this]
        norm_num)⟩
